import Mathlib

/-!
Shallow embedding of a minimal HDFS-style distributed file system
(NameNode metadata server, DataNode chunk server, DFS client).

Python dicts are modelled as insertion-ordered association lists
(`List (κ × ν)`); dict keys are unique by construction in Python, so
theorems that need uniqueness take it as an explicit hypothesis.
Timestamps (`time.time()`) are passed in explicitly as a `now : Nat`
argument to every operation that reads the clock.  Network sockets are
modelled as the list of bytes the connection delivers.  Bytes are `Nat`.
-/

namespace DFS

/-- Dict lookup: first binding of the key, if any. -/
def alistLookup {κ ν : Type} [DecidableEq κ] (l : List (κ × ν)) (key : κ) : Option ν :=
  (l.find? (fun p => p.1 = key)).map Prod.snd

/-- Dict assignment `d[k] = v`: replace the value in place when the key is
present (Python keeps the key's position), otherwise append. -/
def alistInsert {κ ν : Type} [DecidableEq κ] (l : List (κ × ν)) (key : κ) (val : ν) :
    List (κ × ν) :=
  if l.any (fun p => p.1 = key) then
    l.map (fun p => if p.1 = key then (p.1, val) else p)
  else l ++ [(key, val)]

/-- In-place mutation of the value stored under a key. -/
def alistModify {κ ν : Type} [DecidableEq κ] (l : List (κ × ν)) (key : κ) (f : ν → ν) :
    List (κ × ν) :=
  l.map (fun p => if p.1 = key then (p.1, f p.2) else p)

/-- `DataNodeInfo.__init__` plus the mutable heartbeat fields
(namenode.py, class `DataNodeInfo`). -/
structure DataNodeInfo where
  node_id : String
  host : String
  port : Nat
  last_heartbeat : Nat
  chunks : List String
  available_space : Nat
  total_space : Nat
  is_alive : Bool
deriving DecidableEq, Repr

/-- `DataNodeInfo.update_heartbeat`. -/
def DataNodeInfo.update_heartbeat (n : DataNodeInfo) (now available_space total_space : Nat)
    (chunks : List String) : DataNodeInfo :=
  { n with last_heartbeat := now, available_space := available_space,
           total_space := total_space, chunks := chunks, is_alive := true }

/-- `DataNodeInfo.is_healthy`: `(time.time() - last_heartbeat) < timeout`
with the default timeout of 30 seconds. -/
def DataNodeInfo.is_healthy (n : DataNodeInfo) (now : Nat) (timeout : Nat := 30) : Bool :=
  now - n.last_heartbeat < timeout

/-- `FileMetadata.__init__` (namenode.py): `chunks` maps chunk index to the
list of DataNode ids believed to hold a replica. -/
structure FileMetadata where
  filename : String
  size : Nat
  chunk_size : Nat
  replication_factor : Nat
  created_at : Nat
  chunks : List (Nat × List String)
deriving DecidableEq, Repr

/-- `FileMetadata.add_chunk_location`: create an empty list for a fresh
chunk index, then append the id unless already present. -/
def FileMetadata.add_chunk_location (m : FileMetadata) (chunk_id : Nat)
    (datanode_id : String) : FileMetadata :=
  let chunks1 :=
    if (alistLookup m.chunks chunk_id).isNone then m.chunks ++ [(chunk_id, [])]
    else m.chunks
  match alistLookup chunks1 chunk_id with
  | some ids =>
      if datanode_id ∈ ids then { m with chunks := chunks1 }
      else { m with chunks := alistModify chunks1 chunk_id (fun ids => ids ++ [datanode_id]) }
  | none => { m with chunks := chunks1 }

/-- `FileMetadata.remove_chunk_location`: `list.remove` drops the first
occurrence, which is `List.erase`. -/
def FileMetadata.remove_chunk_location (m : FileMetadata) (chunk_id : Nat)
    (datanode_id : String) : FileMetadata :=
  match alistLookup m.chunks chunk_id with
  | some ids =>
      if datanode_id ∈ ids then
        { m with chunks := alistModify m.chunks chunk_id (fun ids => ids.erase datanode_id) }
      else m
  | none => m

/-- The NameNode's mutable metadata (namenode.py, class `NameNode`).
Network fields (host, port, sockets, locks) are irrelevant to the
metadata semantics and omitted. -/
structure NameNode where
  chunk_size : Nat
  replication_factor : Nat
  files : List (String × FileMetadata)
  datanodes : List (String × DataNodeInfo)
deriving DecidableEq, Repr

inductive RegisterResult where
  | registered
  | alreadyRegistered
deriving DecidableEq, Repr

/-- `NameNode.register_datanode`: create a fresh record when the id is
unknown, otherwise succeed without any mutation. -/
def NameNode.register_datanode (s : NameNode) (node_id host : String) (port now : Nat) :
    NameNode × RegisterResult :=
  if (alistLookup s.datanodes node_id).isNone then
    ({ s with datanodes :=
        s.datanodes ++ [(node_id, DataNodeInfo.mk node_id host port now [] 0 0 true)] },
     RegisterResult.registered)
  else (s, RegisterResult.alreadyRegistered)

inductive HeartbeatResult where
  | success
  | unknownNode
deriving DecidableEq, Repr

/-- `NameNode.handle_heartbeat`. -/
def NameNode.handle_heartbeat (s : NameNode) (node_id : String)
    (available_space total_space : Nat) (chunks : List String) (now : Nat) :
    NameNode × HeartbeatResult :=
  match alistLookup s.datanodes node_id with
  | some _ =>
      ({ s with datanodes := alistModify s.datanodes node_id
                  (fun n => n.update_heartbeat now available_space total_space chunks) },
       HeartbeatResult.success)
  | none => (s, HeartbeatResult.unknownNode)

/-- The `{node_id, host, port}` triple handed to clients. -/
structure NodeRef where
  node_id : String
  host : String
  port : Nat
deriving DecidableEq, Repr

/-- Descending-by-available-space order used by the placement policy. -/
def availGE (a b : DataNodeInfo) : Prop := b.available_space ≤ a.available_space

instance : DecidableRel availGE := fun _ _ => Nat.decLe _ _

instance : IsTotal DataNodeInfo availGE :=
  ⟨fun a b => Nat.le_total b.available_space a.available_space⟩

instance : IsTrans DataNodeInfo availGE :=
  ⟨fun _ _ _ h1 h2 => Nat.le_trans h2 h1⟩

/-- `NameNode.select_datanodes_for_chunk`: healthy nodes, stably sorted by
available space descending, first `count` taken.  Python's `list.sort` is a
stable sort; any stable sort produces the same list, so it is modelled by
stable insertion sort. -/
def NameNode.select_datanodes_for_chunk (s : NameNode) (count : Nat) (now : Nat) :
    List NodeRef :=
  let healthy_nodes := (s.datanodes.map Prod.snd).filter (fun n => n.is_healthy now)
  let sorted := healthy_nodes.insertionSort availGE
  (sorted.take count).map (fun n => NodeRef.mk n.node_id n.host n.port)

inductive UploadInitResult where
  | success (chunk_size num_chunks : Nat) (chunk_assignments : List (Nat × List NodeRef))
  | insufficient (needed found : Nat)
deriving DecidableEq, Repr

/-- The `for chunk_id in range(num_chunks)` loop of
`NameNode.handle_upload_init`: `none` models the early error return. -/
def NameNode.uploadInitLoop (s : NameNode) (now : Nat) :
    List Nat → Option (List (Nat × List NodeRef))
  | [] => some []
  | chunk_id :: rest =>
      let datanodes := s.select_datanodes_for_chunk s.replication_factor now
      if datanodes.length < s.replication_factor then none
      else (s.uploadInitLoop now rest).map (fun tl => (chunk_id, datanodes) :: tl)

/-- `NameNode.handle_upload_init`.  The handler reads but never writes the
NameNode state, hence the unchanged state in the returned pair. -/
def NameNode.handle_upload_init (s : NameNode) (filesize now : Nat) :
    NameNode × UploadInitResult :=
  let num_chunks := (filesize + s.chunk_size - 1) / s.chunk_size
  match s.uploadInitLoop now (List.range num_chunks) with
  | some chunk_assignments =>
      (s, UploadInitResult.success s.chunk_size num_chunks chunk_assignments)
  | none =>
      (s, UploadInitResult.insufficient s.replication_factor
            (s.select_datanodes_for_chunk s.replication_factor now).length)

/-- `NameNode.handle_upload_complete`: build a fresh `FileMetadata` from the
client-supplied chunk map and install it, overwriting any previous record.
Always succeeds. -/
def NameNode.handle_upload_complete (s : NameNode) (filename : String) (filesize : Nat)
    (chunks : List (Nat × List String)) (now : Nat) : NameNode :=
  let metadata0 : FileMetadata :=
    FileMetadata.mk filename filesize s.chunk_size s.replication_factor now []
  let metadata := chunks.foldl
    (fun m p => p.2.foldl (fun m datanode_id => m.add_chunk_location p.1 datanode_id) m)
    metadata0
  { s with files := alistInsert s.files filename metadata }

inductive DownloadInitResult where
  | notFound
  | noHealthy (chunk_id : Nat)
  | success (filesize chunk_size : Nat) (chunk_locations : List (Nat × List NodeRef))
deriving DecidableEq, Repr

/-- The per-chunk loop of `NameNode.handle_download_init`: filter each
replica list to registered, healthy nodes; error out at the first chunk
left with no healthy replica. -/
def NameNode.downloadLoop (s : NameNode) (now : Nat) :
    List (Nat × List String) → Except Nat (List (Nat × List NodeRef))
  | [] => Except.ok []
  | (chunk_id, datanode_ids) :: rest =>
      let healthy_nodes := datanode_ids.filterMap (fun node_id =>
        match alistLookup s.datanodes node_id with
        | some info =>
            if info.is_healthy now then some (NodeRef.mk node_id info.host info.port)
            else none
        | none => none)
      if healthy_nodes.isEmpty then Except.error chunk_id
      else (s.downloadLoop now rest).map (fun tl => (chunk_id, healthy_nodes) :: tl)

/-- `NameNode.handle_download_init`. -/
def NameNode.handle_download_init (s : NameNode) (filename : String) (now : Nat) :
    NameNode × DownloadInitResult :=
  match alistLookup s.files filename with
  | none => (s, DownloadInitResult.notFound)
  | some metadata =>
      match s.downloadLoop now metadata.chunks with
      | Except.error chunk_id => (s, DownloadInitResult.noHealthy chunk_id)
      | Except.ok chunk_locations =>
          (s, DownloadInitResult.success metadata.size metadata.chunk_size chunk_locations)

/-- `NameNode.handle_node_failures`: for every file and every chunk index,
drop each dead node id from the replica list (`list.remove` guarded by a
membership test is `List.erase`).  Chunk keys are left in place even when a
list becomes empty. -/
def NameNode.handle_node_failures (s : NameNode) (dead_nodes : List String) : NameNode :=
  { s with files := s.files.map (fun f =>
      (f.1, { f.2 with chunks := f.2.chunks.map (fun c =>
        (c.1, dead_nodes.foldl (fun ids d => ids.erase d) c.2)) })) }

/-- One pass of `NameNode.heartbeat_monitor`: nodes that are marked alive
but whose heartbeat is stale are flipped to dead and collected; then
`handle_node_failures` purges exactly those collected ids. -/
def NameNode.heartbeat_monitor_pass (s : NameNode) (now : Nat) : NameNode :=
  let dead_nodes := (s.datanodes.filter
      (fun p => !(p.2.is_healthy now) && p.2.is_alive)).map Prod.fst
  let datanodes1 := s.datanodes.map (fun p =>
      if !(p.2.is_healthy now) && p.2.is_alive then (p.1, { p.2 with is_alive := false })
      else p)
  NameNode.handle_node_failures { s with datanodes := datanodes1 } dead_nodes

/-- The `while remaining > 0` recv loop shared by `DataNode.store_chunk`
and the client, reading at most 8192 bytes per call and stopping early if
the connection is exhausted.  `wire` is the byte sequence the connection
delivers; structural fuel (`remaining` only ever decreases by at least one
per iteration) keeps the recursion kernel-reducible. -/
def recvLoopAux : Nat → List Nat → Nat → List Nat
  | 0, _, _ => []
  | _ + 1, _, 0 => []
  | _ + 1, [], _ + 1 => []
  | fuel + 1, x :: xs, remaining + 1 =>
      let data := (x :: xs).take (min 8192 (remaining + 1))
      data ++ recvLoopAux fuel ((x :: xs).drop (min 8192 (remaining + 1)))
                (remaining + 1 - data.length)

def recvLoop (wire : List Nat) (remaining : Nat) : List Nat :=
  recvLoopAux remaining wire remaining

/-- The success / error JSON emitted by `DataNode.store_chunk` (`checksum`
is a function of the stored bytes and is not modelled separately). -/
structure StoreResponse where
  success : Bool
  size : Nat
deriving DecidableEq, Repr

/-- `DataNode.store_chunk` against an opaque chunk store (key → blob):
recv up to `chunk_size` bytes, then persist whatever arrived under
`chunk_id` and answer success with the received length. -/
def DataNode.store_chunk (store : List (String × List Nat)) (chunk_id : String)
    (chunk_size : Nat) (wire : List Nat) : List (String × List Nat) × StoreResponse :=
  let chunk_data := recvLoop wire chunk_size
  (alistInsert store chunk_id chunk_data, StoreResponse.mk true chunk_data.length)

/-- The upload loop of `DFSClient.upload_file`, step 2: for each chunk id
in `range(num_chunks)` read the next `chunk_size` bytes of the file and
record the chunk data under that id (chunk-server storage assumed
faithful).  Returns the `uploaded_chunks` dict. -/
def DFSClient.uploadLoop (b : List Nat) (chunk_size chunk_id : Nat) :
    Nat → List (Nat × List Nat)
  | 0 => []
  | n + 1 =>
      (chunk_id, b.take chunk_size) ::
        DFSClient.uploadLoop (b.drop chunk_size) chunk_size (chunk_id + 1) n

/-- The client-side chunk data produced by uploading a file with contents
`b`: `num_chunks = ceil(len(b) / chunk_size)` sequential reads. -/
def DFSClient.uploadChunksData (b : List Nat) (chunk_size : Nat) : List (Nat × List Nat) :=
  DFSClient.uploadLoop b chunk_size 0 ((b.length + chunk_size - 1) / chunk_size)

/-- Step 3 of `DFSClient.download_file`: write the retrieved chunk bodies
out in ascending chunk-index order (`for chunk_id in sorted(chunks_data.keys())`). -/
def DFSClient.reconstruct (chunks_data : List (Nat × List Nat)) : List Nat :=
  (((chunks_data.map Prod.fst).insertionSort (· ≤ ·)).map
    (fun chunk_id => (alistLookup chunks_data chunk_id).getD [])).flatten

end DFS

namespace DFS

/-! Association-list (Python dict) helper lemmas. -/

section AlistLemmas

variable {κ ν : Type} [DecidableEq κ]

theorem alistLookup_nil (key : κ) : alistLookup ([] : List (κ × ν)) key = none := rfl

theorem alistLookup_cons (p : κ × ν) (l : List (κ × ν)) (key : κ) :
    alistLookup (p :: l) key = if p.1 = key then some p.2 else alistLookup l key := by
  by_cases h : p.1 = key <;> simp [alistLookup, List.find?_cons, h]

theorem alistLookup_append (l1 l2 : List (κ × ν)) (key : κ) :
    alistLookup (l1 ++ l2) key = (alistLookup l1 key).or (alistLookup l2 key) := by
  simp only [alistLookup, List.find?_append]
  cases List.find? (fun p => decide (p.1 = key)) l1 <;> simp

theorem alistLookup_alistModify_self (l : List (κ × ν)) (key : κ) (f : ν → ν) :
    alistLookup (alistModify l key f) key = (alistLookup l key).map f := by
  induction l with
  | nil => rfl
  | cons p t ih =>
      by_cases h : p.1 = key <;>
        simp [alistModify, alistLookup_cons, h] at ih ⊢ <;>
        simpa [alistModify] using ih

theorem isSome_alistLookup_iff_any (l : List (κ × ν)) (key : κ) :
    (alistLookup l key).isSome = l.any (fun p => p.1 = key) := by
  induction l with
  | nil => rfl
  | cons p t ih =>
      by_cases h : p.1 = key <;> simp [alistLookup_cons, List.any_cons, h, ih]

theorem alistLookup_alistInsert_self (l : List (κ × ν)) (key : κ) (val : ν) :
    alistLookup (alistInsert l key val) key = some val := by
  unfold alistInsert
  by_cases h : l.any (fun p => p.1 = key)
  · rw [if_pos h]
    have hself := alistLookup_alistModify_self l key (fun _ => val)
    have hsome : (alistLookup l key).isSome = true := by
      rw [isSome_alistLookup_iff_any]; exact h
    obtain ⟨v, hv⟩ := Option.isSome_iff_exists.mp hsome
    simpa [alistModify, hv] using hself
  · rw [if_neg h]
    rw [alistLookup_append]
    have hnone : alistLookup l key = none := by
      have := isSome_alistLookup_iff_any l key
      simp [h] at this
      exact Option.not_isSome_iff_eq_none.mp (by simp [this])
    simp [hnone, alistLookup_cons]

theorem alistLookup_eq_none_iff (l : List (κ × ν)) (key : κ) :
    alistLookup l key = none ↔ key ∉ l.map Prod.fst := by
  induction l with
  | nil => simp [alistLookup_nil]
  | cons p t ih =>
      by_cases h : p.1 = key
      · subst h
        simp [alistLookup_cons]
      · rw [alistLookup_cons, if_neg h, ih, List.map_cons]
        simp only [List.mem_cons, not_or]
        constructor
        · intro hk
          exact ⟨fun he => h he.symm, hk⟩
        · intro hk
          exact hk.2

theorem alistModify_keys (l : List (κ × ν)) (key : κ) (f : ν → ν) :
    (alistModify l key f).map Prod.fst = l.map Prod.fst := by
  unfold alistModify
  rw [List.map_map]
  apply List.map_congr_left
  intro p _
  by_cases h : p.1 = key <;> simp [h]

theorem optionAny_eq_true_iff {α : Type} (o : Option α) (f : α → Bool) :
    o.any f = true ↔ ∃ v, o = some v ∧ f v = true := by
  cases o <;> simp [Option.any]

theorem optionAny_eq_false_iff {α : Type} (o : Option α) (f : α → Bool) :
    o.any f = false ↔ ∀ v, o = some v → f v = false := by
  cases o <;> simp [Option.any]

end AlistLemmas

/-! Lemmas about the NameNode placement policy. -/

/-- Length of the placement result: the healthy-node count capped at `count`. -/
theorem length_select_datanodes (s : NameNode) (count now : Nat) :
    (s.select_datanodes_for_chunk count now).length
      = min count ((s.datanodes.map Prod.snd).filter (fun n => n.is_healthy now)).length := by
  unfold NameNode.select_datanodes_for_chunk
  simp [List.length_take, List.length_insertionSort]

/-! Lemmas about the client upload / download pipelines. -/

/-- The chunk ids recorded by the client upload loop are consecutive. -/
theorem uploadLoop_keys (chunk_size : Nat) :
    ∀ (n : Nat) (b : List Nat) (c : Nat),
      (DFSClient.uploadLoop b chunk_size c n).map Prod.fst = List.range' c n := by
  intro n
  induction n with
  | zero => intro b c; rfl
  | succ m ih =>
      intro b c
      simp [DFSClient.uploadLoop, List.range'_succ, ih]

/-- Looking every key of a duplicate-free association list back up returns
the stored values in order. -/
theorem alistLookup_over_keys {ν : Type} (l : List (Nat × ν)) (dflt : ν)
    (hnd : (l.map Prod.fst).Nodup) :
    (l.map Prod.fst).map (fun k => (alistLookup l k).getD dflt) = l.map Prod.snd := by
  induction l with
  | nil => rfl
  | cons p t ih =>
      simp only [List.map_cons]
      simp only [List.map_cons, List.nodup_cons] at hnd
      congr 1
      · simp [alistLookup_cons]
      · rw [List.map_congr_left (fun k hk => ?_), ih hnd.2]
        have hne : p.1 ≠ k := fun he => hnd.1 (he ▸ hk)
        simp [alistLookup_cons, hne]

/-- Concatenating the sequentially read chunks restores the file. -/
theorem flatten_uploadLoop (chunk_size : Nat) :
    ∀ (n : Nat) (b : List Nat) (c : Nat), b.length ≤ n * chunk_size →
      ((DFSClient.uploadLoop b chunk_size c n).map Prod.snd).flatten = b := by
  intro n
  induction n with
  | zero =>
      intro b c hb
      simp at hb
      simp [DFSClient.uploadLoop, hb]
  | succ m ih =>
      intro b c hb
      have hmul : (m + 1) * chunk_size = m * chunk_size + chunk_size :=
        Nat.succ_mul m chunk_size
      simp only [DFSClient.uploadLoop, List.map_cons, List.flatten_cons]
      rw [ih (b.drop chunk_size) (c + 1) (by simp only [List.length_drop]; omega)]
      exact List.take_append_drop chunk_size b

/-- A file always fits in `ceil(length / chunk_size)` chunks. -/
theorem length_le_numchunks_mul (a cs : Nat) (hcs : 0 < cs) :
    a ≤ ((a + cs - 1) / cs) * cs := by
  have h := le_smul_ceilDiv (a := cs) (b := a) hcs
  rw [Nat.ceilDiv_eq_add_pred_div] at h
  simpa [Nat.mul_comm, smul_eq_mul] using h

/-! Lemmas about `handle_upload_complete` building a FileRecord. -/

/-- Adding a location for a chunk index that already has an entry leaves
the key list unchanged. -/
theorem add_chunk_location_keys_mem (m : FileMetadata) (cid : Nat) (nid : String)
    (h : cid ∈ m.chunks.map Prod.fst) :
    (m.add_chunk_location cid nid).chunks.map Prod.fst = m.chunks.map Prod.fst := by
  unfold FileMetadata.add_chunk_location
  obtain ⟨ids, hids⟩ : ∃ ids, alistLookup m.chunks cid = some ids := by
    cases hl : alistLookup m.chunks cid with
    | none => exact absurd ((alistLookup_eq_none_iff _ _).mp hl) (by simpa using h)
    | some v => exact ⟨v, rfl⟩
  simp only [hids, Option.isNone_some, Bool.false_eq_true, if_false]
  by_cases hmem : nid ∈ ids <;> simp [hmem, alistModify_keys]

/-- Adding a location for a fresh chunk index appends exactly that key. -/
theorem add_chunk_location_keys_fresh (m : FileMetadata) (cid : Nat) (nid : String)
    (h : cid ∉ m.chunks.map Prod.fst) :
    (m.add_chunk_location cid nid).chunks.map Prod.fst = m.chunks.map Prod.fst ++ [cid] := by
  unfold FileMetadata.add_chunk_location
  have hlk : alistLookup m.chunks cid = none := (alistLookup_eq_none_iff _ _).mpr h
  have hlk2 : alistLookup (m.chunks ++ [(cid, [])]) cid = some ([] : List String) := by
    rw [alistLookup_append, hlk]
    simp [alistLookup_cons]
  simp only [hlk, Option.isNone_none, if_true, hlk2]
  simp [alistModify_keys]

theorem innerFold_keys_mem (cid : Nat) (ids : List String) :
    ∀ m : FileMetadata, cid ∈ m.chunks.map Prod.fst →
      ((ids.foldl (fun m nid => m.add_chunk_location cid nid) m).chunks.map Prod.fst)
        = m.chunks.map Prod.fst := by
  induction ids with
  | nil => intro m _; rfl
  | cons x rest ih =>
      intro m hm
      have hstep := add_chunk_location_keys_mem m cid x hm
      simp only [List.foldl_cons]
      rw [ih (m.add_chunk_location cid x) (by rw [hstep]; exact hm), hstep]

theorem innerFold_keys_fresh (cid : Nat) (ids : List String) (m : FileMetadata)
    (h : cid ∉ m.chunks.map Prod.fst) (hne : ids ≠ []) :
    ((ids.foldl (fun m nid => m.add_chunk_location cid nid) m).chunks.map Prod.fst)
      = m.chunks.map Prod.fst ++ [cid] := by
  cases ids with
  | nil => exact absurd rfl hne
  | cons x rest =>
      have hstep := add_chunk_location_keys_fresh m cid x h
      simp only [List.foldl_cons]
      rw [innerFold_keys_mem cid rest (m.add_chunk_location cid x)
            (by rw [hstep]; exact List.mem_append_right _ (List.mem_singleton.mpr rfl)),
          hstep]

/-- The chunk keys produced by the `upload_complete` fold are exactly the
supplied keys that carry at least one node id. -/
theorem outerFold_keys (chunks : List (Nat × List String)) :
    ∀ m : FileMetadata, (chunks.map Prod.fst).Nodup →
      (∀ k ∈ chunks.map Prod.fst, k ∉ m.chunks.map Prod.fst) →
      ((chunks.foldl
          (fun m p => p.2.foldl (fun m nid => m.add_chunk_location p.1 nid) m)
          m).chunks.map Prod.fst)
        = m.chunks.map Prod.fst ++ (chunks.filter (fun p => !p.2.isEmpty)).map Prod.fst := by
  induction chunks with
  | nil => intro m _ _; simp
  | cons p rest ih =>
      intro m hnd hdisj
      simp only [List.map_cons, List.nodup_cons] at hnd
      simp only [List.foldl_cons]
      by_cases hids : p.2.isEmpty
      · have hempty : p.2 = [] := List.isEmpty_iff.mp hids
        rw [hempty]
        simp only [List.foldl_nil]
        rw [ih m hnd.2 (fun k hk => hdisj k (List.mem_cons_of_mem _ hk))]
        simp [List.filter_cons, hids, hempty]
      · have hfresh : p.1 ∉ m.chunks.map Prod.fst :=
          hdisj p.1 (List.mem_cons_self _ _)
        have hinner := innerFold_keys_fresh p.1 p.2 m hfresh
          (fun he => hids (by rw [he]; rfl))
        rw [ih _ hnd.2 ?_, hinner]
        · simp only [List.filter_cons, hids]
          simp [List.append_assoc]
        · intro k hk
          rw [hinner]
          intro hmem
          rcases List.mem_append.mp hmem with hmem1 | hmem2
          · exact hdisj k (List.mem_cons_of_mem _ hk) hmem1
          · exact hnd.1 (List.mem_singleton.mp hmem2 ▸ hk)

/-- `add_chunk_location` only ever rewrites the `chunks` field. -/
theorem add_chunk_location_eq_set (m : FileMetadata) (cid : Nat) (nid : String) :
    ∃ l, m.add_chunk_location cid nid = { m with chunks := l } := by
  unfold FileMetadata.add_chunk_location
  split
  all_goals dsimp only
  all_goals split
  all_goals try split
  all_goals exact ⟨_, rfl⟩

/-- The whole `upload_complete` fold only ever rewrites the `chunks` field. -/
theorem uploadFold_eq_set (chunks : List (Nat × List String)) :
    ∀ m0 : FileMetadata, ∃ l,
      chunks.foldl (fun m p => p.2.foldl (fun m nid => m.add_chunk_location p.1 nid) m) m0
        = { m0 with chunks := l } := by
  have hinner : ∀ (cid : Nat) (ids : List String) (m0 : FileMetadata), ∃ l,
      ids.foldl (fun m nid => m.add_chunk_location cid nid) m0 = { m0 with chunks := l } := by
    intro cid ids
    induction ids with
    | nil => exact fun m0 => ⟨m0.chunks, rfl⟩
    | cons x rest ih =>
        intro m0
        obtain ⟨l1, h1⟩ := add_chunk_location_eq_set m0 cid x
        obtain ⟨l2, h2⟩ := ih (m0.add_chunk_location cid x)
        exact ⟨l2, by rw [List.foldl_cons, h2, h1]⟩
  induction chunks with
  | nil => exact fun m0 => ⟨m0.chunks, rfl⟩
  | cons p rest ih =>
      intro m0
      obtain ⟨l1, h1⟩ := hinner p.1 p.2 m0
      obtain ⟨l2, h2⟩ := ih (p.2.foldl (fun m nid => m.add_chunk_location p.1 nid) m0)
      exact ⟨l2, by rw [List.foldl_cons, h2, h1]⟩

/-! Lemmas about the liveness scanner's purge. -/

theorem foldl_erase_subset (ds : List String) :
    ∀ l : List String, ds.foldl (fun ids x => ids.erase x) l ⊆ l := by
  induction ds with
  | nil => exact fun l => fun _ h => h
  | cons x rest ih =>
      intro l
      simp only [List.foldl_cons]
      exact fun a ha => List.erase_subset x l (ih (l.erase x) ha)

theorem not_mem_foldl_erase (ds : List String) :
    ∀ (l : List String), l.Nodup → ∀ d ∈ ds, d ∉ ds.foldl (fun ids x => ids.erase x) l := by
  induction ds with
  | nil => intro l _ d hd; simp at hd
  | cons x rest ih =>
      intro l hnd d hd
      simp only [List.foldl_cons]
      rcases List.mem_cons.mp hd with he | hmem
      · subst he
        intro hcontra
        have hsub := foldl_erase_subset rest (l.erase d) hcontra
        exact (List.Nodup.mem_erase_iff hnd).mp hsub |>.1 rfl
      · exact ih (l.erase x) (hnd.erase x) d hmem

/-! Lemmas about the download-init per-chunk loop. -/

theorem downloadLoop_ok (s : NameNode) (now : Nat) :
    ∀ cl : List (Nat × List String),
      (∀ pr ∈ cl, ∃ nid ∈ pr.2, ∃ info,
          alistLookup s.datanodes nid = some info ∧ info.is_healthy now = true) →
      ∃ locs, s.downloadLoop now cl = Except.ok locs
        ∧ locs.map Prod.fst = cl.map Prod.fst
        ∧ ∀ pr ∈ locs, ∀ ref ∈ pr.2, ∃ info,
            alistLookup s.datanodes ref.node_id = some info ∧ info.is_healthy now = true
              ∧ ref.host = info.host ∧ ref.port = info.port := by
  intro cl
  induction cl with
  | nil => intro _; exact ⟨[], rfl, rfl, by simp⟩
  | cons pr rest ih =>
      intro hall
      obtain ⟨nid, hnid, info, hinfo, hhealthy⟩ := hall pr (List.mem_cons_self _ _)
      obtain ⟨locs, hloop, hkeys, hrefs⟩ :=
        ih (fun q hq => hall q (List.mem_cons_of_mem _ hq))
      have hmem : NodeRef.mk nid info.host info.port ∈ pr.2.filterMap (fun node_id =>
          match alistLookup s.datanodes node_id with
          | some info =>
              if info.is_healthy now then some (NodeRef.mk node_id info.host info.port)
              else none
          | none => none) := by
        refine List.mem_filterMap.mpr ⟨nid, hnid, ?_⟩
        simp [hinfo, hhealthy]
      have hne : (pr.2.filterMap (fun node_id =>
          match alistLookup s.datanodes node_id with
          | some info =>
              if info.is_healthy now then some (NodeRef.mk node_id info.host info.port)
              else none
          | none => none)).isEmpty = false := by
        rw [List.isEmpty_eq_false_iff_exists_mem]
        exact ⟨_, hmem⟩
      refine ⟨(pr.1, pr.2.filterMap (fun node_id =>
          match alistLookup s.datanodes node_id with
          | some info =>
              if info.is_healthy now then some (NodeRef.mk node_id info.host info.port)
              else none
          | none => none)) :: locs, ?_, ?_, ?_⟩
      · show NameNode.downloadLoop s now (pr :: rest) = _
        rw [show pr = (pr.1, pr.2) from rfl]
        simp only [NameNode.downloadLoop, hne, Bool.false_eq_true, if_false, hloop,
          Except.map]
      · simp [hkeys]
      · intro q hq ref href
        rcases List.mem_cons.mp hq with he | hmemq
        · subst he
          simp only at href
          obtain ⟨nid1, hnid1, hsome⟩ := List.mem_filterMap.mp href
          revert hsome
          cases hl : alistLookup s.datanodes nid1 with
          | none => intro hsome; simp at hsome
          | some info1 =>
              intro hsome
              dsimp only at hsome
              by_cases hh : info1.is_healthy now
              · rw [if_pos hh] at hsome
                obtain he := Option.some.inj hsome
                refine ⟨info1, ?_, hh, ?_, ?_⟩
                · rw [← he]; exact hl
                · rw [← he]
                · rw [← he]
              · rw [if_neg hh] at hsome; simp at hsome
        · exact hrefs q hmemq ref href

theorem downloadLoop_err (s : NameNode) (now : Nat) :
    ∀ cl : List (Nat × List String),
      (∃ pr ∈ cl, ∀ nid ∈ pr.2, ∀ info,
          alistLookup s.datanodes nid = some info → info.is_healthy now = false) →
      ∃ cid, s.downloadLoop now cl = Except.error cid := by
  intro cl
  induction cl with
  | nil => intro h; obtain ⟨pr, hpr, _⟩ := h; simp at hpr
  | cons q rest ih =>
      intro h
      by_cases hq : (q.2.filterMap (fun node_id =>
          match alistLookup s.datanodes node_id with
          | some info =>
              if info.is_healthy now then some (NodeRef.mk node_id info.host info.port)
              else none
          | none => none)).isEmpty
      · refine ⟨q.1, ?_⟩
        show NameNode.downloadLoop s now (q :: rest) = _
        rw [show q = (q.1, q.2) from rfl]
        simp only [NameNode.downloadLoop, hq, if_true]
      · obtain ⟨pr, hpr, hbad⟩ := h
        have hprrest : pr ∈ rest := by
          rcases List.mem_cons.mp hpr with he | hm
          · exfalso
            subst he
            rw [Bool.not_eq_true, List.isEmpty_eq_false_iff_exists_mem] at hq
            obtain ⟨ref, href⟩ := hq
            obtain ⟨nid1, hnid1, hsome⟩ := List.mem_filterMap.mp href
            revert hsome
            cases hl : alistLookup s.datanodes nid1 with
            | none => intro hsome; simp at hsome
            | some info1 =>
                intro hsome
                dsimp only at hsome
                have hfalse := hbad nid1 hnid1 info1 hl
                rw [if_neg (by simp [hfalse])] at hsome
                simp at hsome
          · exact hm
        obtain ⟨cid, hcid⟩ := ih ⟨pr, hprrest, hbad⟩
        refine ⟨cid, ?_⟩
        show NameNode.downloadLoop s now (q :: rest) = _
        rw [show q = (q.1, q.2) from rfl]
        simp only [NameNode.downloadLoop, hq, Bool.false_eq_true, if_false, hcid,
          Except.map]

/-! Lemmas about the placement policy's selection. -/

/-- With enough healthy nodes, the placement policy returns the top
`replication_factor` healthy nodes by available space: the selection is
drawn from the registry, healthy, duplicate-free, sorted descending by
available space, and dominates every healthy node left out. -/
theorem select_spec (s : NameNode) (now : Nat)
    (hwfk : (s.datanodes.map Prod.fst).Nodup)
    (hwfv : ∀ p ∈ s.datanodes, p.2.node_id = p.1)
    (hcount : s.replication_factor
        ≤ ((s.datanodes.map Prod.snd).filter (fun n => n.is_healthy now)).length) :
    ∃ sel : List DataNodeInfo,
      s.select_datanodes_for_chunk s.replication_factor now
          = sel.map (fun d => NodeRef.mk d.node_id d.host d.port)
      ∧ sel.length = s.replication_factor
      ∧ (sel.map DataNodeInfo.node_id).Nodup
      ∧ (∀ d ∈ sel, d ∈ s.datanodes.map Prod.snd ∧ d.is_healthy now = true)
      ∧ sel.Pairwise availGE
      ∧ (∀ d ∈ s.datanodes.map Prod.snd, d.is_healthy now = true →
            d.node_id ∉ sel.map DataNodeInfo.node_id →
            ∀ e ∈ sel, d.available_space ≤ e.available_space) := by
  classical
  set healthy := (s.datanodes.map Prod.snd).filter (fun n => n.is_healthy now) with hhealthy
  set sorted := healthy.insertionSort availGE with hsorted
  have hperm : sorted.Perm healthy := List.perm_insertionSort availGE healthy
  have hlen : sorted.length = healthy.length := hperm.length_eq
  refine ⟨sorted.take s.replication_factor, rfl, ?_, ?_, ?_, ?_, ?_⟩
  · rw [List.length_take, hlen]
    omega
  · have hids : (s.datanodes.map Prod.snd).map DataNodeInfo.node_id
        = s.datanodes.map Prod.fst := by
      rw [List.map_map]
      exact List.map_congr_left (fun p hp => hwfv p hp)
    have h1 : ((s.datanodes.map Prod.snd).map DataNodeInfo.node_id).Nodup := by
      rw [hids]; exact hwfk
    have h2 : (healthy.map DataNodeInfo.node_id).Nodup :=
      ((List.filter_sublist _).map DataNodeInfo.node_id).nodup h1
    have h3 : (sorted.map DataNodeInfo.node_id).Nodup :=
      ((hperm.map DataNodeInfo.node_id).nodup_iff).mpr h2
    exact ((List.take_sublist _ _).map DataNodeInfo.node_id).nodup h3
  · intro d hd
    have hdsorted : d ∈ sorted := (List.take_sublist _ _).subset hd
    have hdhealthy : d ∈ healthy := hperm.subset hdsorted
    rw [hhealthy] at hdhealthy
    have := List.mem_filter.mp hdhealthy
    exact ⟨this.1, this.2⟩
  · exact (List.sorted_insertionSort availGE healthy).sublist (List.take_sublist _ _)
  · intro d hdmem hdh hdnot e he
    have hdhealthy : d ∈ healthy := by
      rw [hhealthy]; exact List.mem_filter.mpr ⟨hdmem, hdh⟩
    have hdsorted : d ∈ sorted := hperm.mem_iff.mpr hdhealthy
    have hdnotsel : d ∉ sorted.take s.replication_factor := by
      intro hcontra
      exact hdnot (List.mem_map.mpr ⟨d, hcontra, rfl⟩)
    have hddrop : d ∈ sorted.drop s.replication_factor := by
      have hsplit : d ∈ sorted.take s.replication_factor
          ++ sorted.drop s.replication_factor := by
        rw [List.take_append_drop]
        exact hdsorted
      rcases List.mem_append.mp hsplit with h | h
      · exact absurd h hdnotsel
      · exact h
    have hpw : List.Pairwise availGE
        (sorted.take s.replication_factor ++ sorted.drop s.replication_factor) := by
      rw [List.take_append_drop]
      exact List.sorted_insertionSort availGE healthy
    exact (List.pairwise_append.mp hpw).2.2 e he d hddrop

/-- A successful pass of the `upload_init` per-chunk loop records the
input chunk ids in order, each mapped to the same selection, and certifies
that the selection was long enough. -/
theorem uploadInitLoop_some (s : NameNode) (now : Nat) :
    ∀ (l : List Nat) (asg : List (Nat × List NodeRef)),
      s.uploadInitLoop now l = some asg →
      asg.map Prod.fst = l
      ∧ (l ≠ [] → s.replication_factor
          ≤ (s.select_datanodes_for_chunk s.replication_factor now).length)
      ∧ ∀ pr ∈ asg, pr.2 = s.select_datanodes_for_chunk s.replication_factor now := by
  intro l
  induction l with
  | nil =>
      intro asg h
      simp only [NameNode.uploadInitLoop] at h
      obtain rfl := Option.some.inj h
      exact ⟨rfl, fun hc => absurd rfl hc, by simp⟩
  | cons cid rest ih =>
      intro asg h
      simp only [NameNode.uploadInitLoop] at h
      by_cases hguard : (s.select_datanodes_for_chunk s.replication_factor now).length
          < s.replication_factor
      · rw [if_pos hguard] at h
        exact absurd h (by simp)
      · rw [if_neg hguard] at h
        obtain ⟨tl, htl, hasg⟩ := Option.map_eq_some'.mp h
        obtain ⟨hkeys, _, hall⟩ := ih tl htl
        subst hasg
        refine ⟨by simp [hkeys], fun _ => by omega, ?_⟩
        intro pr hpr
        rcases List.mem_cons.mp hpr with he | hm
        · rw [he]
        · exact hall pr hm

/-! Claim theorems. -/

/-- C1: Round-trip: for every byte sequence `b` and positive chunk size,
uploading via the client pipeline (the file is split into
`ceil(len(b) / chunk_size)` chunks read sequentially, the last chunk
short) and downloading via the client pipeline (retrieved chunk bodies
written out in ascending chunk-index order) yields exactly `b`, the
contacted chunk servers being assumed to store and return chunk bytes
faithfully. -/
theorem C1_upload_download_round_trip (b : List Nat) (chunk_size : Nat)
    (hcs : 0 < chunk_size) :
    DFSClient.reconstruct (DFSClient.uploadChunksData b chunk_size) = b := by
  unfold DFSClient.reconstruct DFSClient.uploadChunksData
  set n := (b.length + chunk_size - 1) / chunk_size with hn
  have hkeys : (DFSClient.uploadLoop b chunk_size 0 n).map Prod.fst = List.range' 0 n :=
    uploadLoop_keys chunk_size n b 0
  have hsorted : List.Sorted (· ≤ ·) (List.range' 0 n) := List.pairwise_le_range' 0 n
  have hsortid : ((DFSClient.uploadLoop b chunk_size 0 n).map Prod.fst).insertionSort (· ≤ ·)
      = (DFSClient.uploadLoop b chunk_size 0 n).map Prod.fst := by
    rw [hkeys]
    exact List.eq_of_perm_of_sorted (List.perm_insertionSort (· ≤ ·) _)
      (List.sorted_insertionSort (· ≤ ·) _) hsorted
  rw [hsortid]
  rw [alistLookup_over_keys _ _ (by rw [hkeys]; exact List.nodup_range' 0 n)]
  exact flatten_uploadLoop chunk_size n b 0 (length_le_numchunks_mul b.length chunk_size hcs)

/-- C1 witness: a 5-byte file with chunk size 2 (three chunks, last one
short) survives the round trip. -/
theorem C1_upload_download_round_trip_witness :
    0 < 2
    ∧ DFSClient.reconstruct (DFSClient.uploadChunksData [7, 8, 9, 10, 11] 2)
        = [7, 8, 9, 10, 11] :=
  ⟨by decide, C1_upload_download_round_trip [7, 8, 9, 10, 11] 2 (by decide)⟩

/-- C4: upload_init failure atomicity: with a positive chunk size, a
positive file size and fewer healthy (live) chunk servers than the
replication factor, `handle_upload_init` answers the InsufficientCapacity
error (reporting the needed and found counts) and leaves the NameNode
state exactly unchanged — no FileRecord, no reservation. -/
theorem C4_upload_init_failure_atomicity (s : NameNode) (filesize now : Nat)
    (hcs : 0 < s.chunk_size) (hfs : 1 ≤ filesize)
    (hlive : ((s.datanodes.map Prod.snd).filter (fun n => n.is_healthy now)).length
                < s.replication_factor) :
    s.handle_upload_init filesize now
      = (s, UploadInitResult.insufficient s.replication_factor
              ((s.datanodes.map Prod.snd).filter (fun n => n.is_healthy now)).length) := by
  have hsel : (s.select_datanodes_for_chunk s.replication_factor now).length
      = ((s.datanodes.map Prod.snd).filter (fun n => n.is_healthy now)).length := by
    rw [length_select_datanodes]; omega
  have hguard : (s.select_datanodes_for_chunk s.replication_factor now).length
      < s.replication_factor := by omega
  have hn : 1 ≤ (filesize + s.chunk_size - 1) / s.chunk_size :=
    (Nat.one_le_div_iff hcs).2 (by omega)
  obtain ⟨m, hm⟩ : ∃ m, (filesize + s.chunk_size - 1) / s.chunk_size = m + 1 :=
    ⟨(filesize + s.chunk_size - 1) / s.chunk_size - 1, by omega⟩
  have hloop : s.uploadInitLoop now
      (List.range ((filesize + s.chunk_size - 1) / s.chunk_size)) = none := by
    rw [hm, List.range_succ_eq_map]
    simp [NameNode.uploadInitLoop, hguard]
  simp [NameNode.handle_upload_init, hloop, hsel]

/-- C4 witness: one-byte upload against an empty fleet with replication
factor 3 fails with needed 3, found 0, state unchanged. -/
theorem C4_upload_init_failure_atomicity_witness :
    0 < (NameNode.mk 1024 3 [] []).chunk_size ∧ 1 ≤ 1
    ∧ (((NameNode.mk 1024 3 [] []).datanodes.map Prod.snd).filter
          (fun n => n.is_healthy 0)).length < (NameNode.mk 1024 3 [] []).replication_factor
    ∧ (NameNode.mk 1024 3 [] []).handle_upload_init 1 0
        = (NameNode.mk 1024 3 [] [],
           UploadInitResult.insufficient (NameNode.mk 1024 3 [] []).replication_factor
             (((NameNode.mk 1024 3 [] []).datanodes.map Prod.snd).filter
                (fun n => n.is_healthy 0)).length) :=
  ⟨by decide, by decide, by decide,
   C4_upload_init_failure_atomicity (NameNode.mk 1024 3 [] []) 1 0
     (by decide) (by decide) (by decide)⟩

/-- C9: register idempotence: registering an id that is already present in
the chunk-server registry returns success ("already registered") and
leaves the entire NameNode state — including the existing record's host,
port, heartbeat data and alive bit — unchanged, even when the supplied
host and port differ. -/
theorem C9_register_idempotent (s : NameNode) (node_id host : String) (port now : Nat)
    (h : (alistLookup s.datanodes node_id).isSome) :
    s.register_datanode node_id host port now = (s, RegisterResult.alreadyRegistered) := by
  unfold NameNode.register_datanode
  rw [if_neg]
  cases hl : alistLookup s.datanodes node_id <;> simp_all

/-- C9 witness: re-registering "n1" with a different host and port leaves
the registry record untouched. -/
theorem C9_register_idempotent_witness :
    (alistLookup (NameNode.mk 1024 3 []
        [("n1", DataNodeInfo.mk "n1" "h" 1 0 [] 5 9 true)]).datanodes "n1").isSome = true
    ∧ (NameNode.mk 1024 3 [] [("n1", DataNodeInfo.mk "n1" "h" 1 0 [] 5 9 true)]
        ).register_datanode "n1" "otherhost" 999 77
      = (NameNode.mk 1024 3 [] [("n1", DataNodeInfo.mk "n1" "h" 1 0 [] 5 9 true)],
         RegisterResult.alreadyRegistered) :=
  ⟨by decide,
   C9_register_idempotent
     (NameNode.mk 1024 3 [] [("n1", DataNodeInfo.mk "n1" "h" 1 0 [] 5 9 true)])
     "n1" "otherhost" 999 77 (by decide)⟩

/-- C10: implicit size-0 edge case: for every fleet state — any registry,
even empty — and positive chunk size, `handle_upload_init` on a zero-byte
file succeeds with `num_chunks = 0` and an empty assignments map; the
insufficient-capacity check is never reached because the per-chunk loop
has no iterations. -/
theorem C10_upload_init_size_zero (s : NameNode) (now : Nat) (hcs : 0 < s.chunk_size) :
    s.handle_upload_init 0 now = (s, UploadInitResult.success s.chunk_size 0 []) := by
  unfold NameNode.handle_upload_init
  have h0 : (0 + s.chunk_size - 1) / s.chunk_size = 0 := by
    apply Nat.div_eq_of_lt; omega
  rw [h0]
  rfl

/-- C10 witness: a zero-byte upload succeeds against an empty fleet with
zero registered chunk servers. -/
theorem C10_upload_init_size_zero_witness :
    0 < (NameNode.mk 1024 3 [] []).chunk_size
    ∧ (NameNode.mk 1024 3 [] []).handle_upload_init 0 5
        = (NameNode.mk 1024 3 [] [],
           UploadInitResult.success (NameNode.mk 1024 3 [] []).chunk_size 0 []) :=
  ⟨by decide, C10_upload_init_size_zero (NameNode.mk 1024 3 [] []) 5 (by decide)⟩

/-- C2 counterexample: `handle_upload_complete` installs whatever chunk map
the client supplies.  From a fresh NameNode (chunk size 1024), completing
an upload of a 100-byte file with the map `{5: ["n1"]}` installs a
FileRecord whose chunk-key list is `[5]`, although
`ceil(100/1024) = 1` demands the key set `{0}` — the claimed invariant is
not preserved by `upload_complete`. -/
theorem C2_chunk_key_invariant_cex :
    (alistLookup ((NameNode.mk 1024 3 [] []).handle_upload_complete
        "f" 100 [(5, ["n1"])] 0).files "f").map (fun m => m.chunks.map Prod.fst)
      = some [5]
    ∧ (100 + 1024 - 1) / 1024 = 1
    ∧ ([5] : List Nat) ≠ List.range 1 := by
  refine ⟨rfl, by norm_num, by decide⟩

/-- C2 amended: `handle_upload_complete` always succeeds and installs a
FileRecord carrying the declared size and the configured chunk size, whose
chunk keys are exactly the client-supplied keys that come with at least
one node id (supplied keys are dict keys, hence duplicate-free).  The
invariant `keys(chunks) = {0,…,ceil(size/chunk_size)−1}` therefore holds
exactly when the client supplies those keys with nonempty replica lists,
and an arbitrary map installs a violating record. -/
theorem C2_chunk_key_invariant_amended (s : NameNode) (filename : String) (filesize : Nat)
    (chunks : List (Nat × List String)) (now : Nat)
    (hnd : (chunks.map Prod.fst).Nodup) :
    ∃ m, alistLookup (s.handle_upload_complete filename filesize chunks now).files filename
          = some m
      ∧ m.chunks.map Prod.fst = (chunks.filter (fun p => !p.2.isEmpty)).map Prod.fst
      ∧ m.size = filesize ∧ m.chunk_size = s.chunk_size
      ∧ m.replication_factor = s.replication_factor := by
  unfold NameNode.handle_upload_complete
  obtain ⟨l, hfold⟩ := uploadFold_eq_set chunks
    (FileMetadata.mk filename filesize s.chunk_size s.replication_factor now [])
  refine ⟨_, alistLookup_alistInsert_self _ _ _, ?_, ?_, ?_, ?_⟩
  · have hkeys := outerFold_keys chunks
      (FileMetadata.mk filename filesize s.chunk_size s.replication_factor now []) hnd
      (by intro k _ hk; simp at hk)
    simpa using hkeys
  · rw [hfold]
  · rw [hfold]
  · rw [hfold]

/-- C2 amended witness: completing an upload with the well-formed map
`{0: ["n1"]}` installs a record with chunk keys `[0]`, size 100, chunk
size 1024. -/
theorem C2_chunk_key_invariant_amended_witness :
    (([(0, ["n1"])] : List (Nat × List String)).map Prod.fst).Nodup
    ∧ ∃ m, alistLookup ((NameNode.mk 1024 3 [] []).handle_upload_complete
          "f" 100 [(0, ["n1"])] 0).files "f" = some m
        ∧ m.chunks.map Prod.fst
            = (([(0, ["n1"])] : List (Nat × List String)).filter
                (fun p => !p.2.isEmpty)).map Prod.fst
        ∧ m.size = 100 ∧ m.chunk_size = (NameNode.mk 1024 3 [] []).chunk_size
        ∧ m.replication_factor = (NameNode.mk 1024 3 [] []).replication_factor :=
  ⟨by decide,
   C2_chunk_key_invariant_amended (NameNode.mk 1024 3 [] []) "f" 100 [(0, ["n1"])] 0
     (by decide)⟩

/-- C5 counterexample: the liveness scanner only purges ids of nodes it
flips from alive to dead in the same pass.  A reachable trace — register
"n1" at time 0, scanner pass at time 50 (marks "n1" dead and purges
nothing), `upload_complete` re-introducing "n1" into a replica list,
scanner pass at time 100 — ends with the dead node id "n1" still present
in the FileRecord while its alive bit is false. -/
theorem C5_liveness_purge_cex :
    (((((((NameNode.mk 1024 1 [] []).register_datanode "n1" "h" 8001
          0).1.heartbeat_monitor_pass 50).handle_upload_complete "f" 100
          [(0, ["n1"])] 60).heartbeat_monitor_pass 100).files.map
        (fun f => (f.1, f.2.chunks))) = [("f", [(0, ["n1"])])])
    ∧ ((((((NameNode.mk 1024 1 [] []).register_datanode "n1" "h" 8001
          0).1.heartbeat_monitor_pass 50).handle_upload_complete "f" 100
          [(0, ["n1"])] 60).heartbeat_monitor_pass 100).datanodes.map
        (fun p => (p.1, p.2.is_alive))) = [("n1", false)] := by
  constructor
  · rfl
  · rfl

/-- C5 amended: a scanner pass purges exactly the ids it transitions from
alive to dead during that pass: if a registered node is marked alive but
its heartbeat is stale at the time of the pass, then after the pass its id
appears in no chunk's replica list of any FileRecord (replica lists are
duplicate-free, as every operation keeps them).  Ids of nodes already
marked dead before the pass are not purged. -/
theorem C5_liveness_purge_amended (s : NameNode) (now : Nat) (d : String)
    (hnodup : ∀ f ∈ s.files, ∀ c ∈ f.2.chunks, c.2.Nodup)
    (hd : ∃ p ∈ s.datanodes, p.1 = d ∧ p.2.is_alive = true ∧ p.2.is_healthy now = false) :
    ∀ f ∈ (s.heartbeat_monitor_pass now).files, ∀ c ∈ f.2.chunks, d ∉ c.2 := by
  obtain ⟨p, hp, hpd, hpa, hph⟩ := hd
  have hdead : d ∈ (s.datanodes.filter
      (fun p => !(p.2.is_healthy now) && p.2.is_alive)).map Prod.fst := by
    refine List.mem_map.mpr ⟨p, ?_, hpd⟩
    refine List.mem_filter.mpr ⟨hp, ?_⟩
    simp [hph, hpa]
  intro f hf c hc
  unfold NameNode.heartbeat_monitor_pass NameNode.handle_node_failures at hf
  simp only [List.mem_map] at hf
  obtain ⟨f0, hf0, hfeq⟩ := hf
  subst hfeq
  simp only [List.mem_map] at hc
  obtain ⟨c0, hc0, hceq⟩ := hc
  subst hceq
  exact not_mem_foldl_erase _ c0.2 (hnodup f0 hf0 c0 hc0) d hdead

/-- C5 amended witness: a pass at time 100 over a state holding one
alive-but-stale node "n1" (heartbeat at time 0) purges "n1" from the one
replica list that contains it. -/
theorem C5_liveness_purge_amended_witness :
    (∀ f ∈ (NameNode.mk 1024 1 [("f", FileMetadata.mk "f" 100 1024 1 60 [(0, ["n1"])])]
        [("n1", DataNodeInfo.mk "n1" "h" 8001 0 [] 0 0 true)]).files,
      ∀ c ∈ f.2.chunks, c.2.Nodup)
    ∧ (∃ p ∈ (NameNode.mk 1024 1 [("f", FileMetadata.mk "f" 100 1024 1 60 [(0, ["n1"])])]
          [("n1", DataNodeInfo.mk "n1" "h" 8001 0 [] 0 0 true)]).datanodes,
        p.1 = "n1" ∧ p.2.is_alive = true ∧ p.2.is_healthy 100 = false)
    ∧ ∀ f ∈ ((NameNode.mk 1024 1 [("f", FileMetadata.mk "f" 100 1024 1 60 [(0, ["n1"])])]
          [("n1", DataNodeInfo.mk "n1" "h" 8001 0 [] 0 0 true)]).heartbeat_monitor_pass
            100).files,
        ∀ c ∈ f.2.chunks, "n1" ∉ c.2 :=
  ⟨by decide, by decide,
   C5_liveness_purge_amended
     (NameNode.mk 1024 1 [("f", FileMetadata.mk "f" 100 1024 1 60 [(0, ["n1"])])]
       [("n1", DataNodeInfo.mk "n1" "h" 8001 0 [] 0 0 true)])
     100 "n1" (by decide) (by decide)⟩

/-- C6: evaluating `store_chunk` at the failing input: a request declaring
`chunk_size = 10` whose connection delivers only 3 bytes before closing.
The chunk server stores the truncated 3-byte blob under the chunk id and
answers success with size 3 — it does not emit an error, and a partial
blob is left in the store, contradicting the claimed error atomicity. -/
theorem C6_store_chunk_short_read_behavior :
    DataNode.store_chunk [] "c" 10 [1, 2, 3]
      = ([("c", [1, 2, 3])], StoreResponse.mk true 3) := by
  rfl

/-- C7: download_init contract: an unknown filename fails with NotFound
and an unchanged state; a known file in which every chunk has at least one
replica on a registered healthy (live) node succeeds, returning the file's
size and chunk size together with a locations map covering exactly the
file's chunk keys whose every listed entry names a registered node that is
healthy at the time of the call, carrying that node's host and port; a
known file with some chunk having zero live replicas fails with the
unrecoverable-chunk error. -/
theorem C7_download_init_result (s : NameNode) (filename : String) (now : Nat) :
    (alistLookup s.files filename = none →
      s.handle_download_init filename now = (s, DownloadInitResult.notFound))
    ∧ (∀ md, alistLookup s.files filename = some md →
        (∀ pr ∈ md.chunks, ∃ nid ∈ pr.2,
            (alistLookup s.datanodes nid).any (fun info => info.is_healthy now) = true) →
        ∃ locs, s.handle_download_init filename now
              = (s, DownloadInitResult.success md.size md.chunk_size locs)
          ∧ locs.map Prod.fst = md.chunks.map Prod.fst
          ∧ ∀ pr ∈ locs, ∀ ref ∈ pr.2, ∃ info,
              alistLookup s.datanodes ref.node_id = some info ∧ info.is_healthy now = true
                ∧ ref.host = info.host ∧ ref.port = info.port)
    ∧ (∀ md, alistLookup s.files filename = some md →
        (∃ pr ∈ md.chunks, ∀ nid ∈ pr.2,
            (alistLookup s.datanodes nid).any (fun info => info.is_healthy now) = false) →
        ∃ cid, s.handle_download_init filename now
              = (s, DownloadInitResult.noHealthy cid)) := by
  refine ⟨?_, ?_, ?_⟩
  · intro hnone
    unfold NameNode.handle_download_init
    rw [hnone]
  · intro md hmd hlive
    have hlive2 : ∀ pr ∈ md.chunks, ∃ nid ∈ pr.2, ∃ info,
        alistLookup s.datanodes nid = some info ∧ info.is_healthy now = true := by
      intro pr hpr
      obtain ⟨nid, hnid, hany⟩ := hlive pr hpr
      obtain ⟨info, hsome, hh⟩ := (optionAny_eq_true_iff _ _).mp hany
      exact ⟨nid, hnid, info, hsome, hh⟩
    obtain ⟨locs, hloop, hkeys, hrefs⟩ := downloadLoop_ok s now md.chunks hlive2
    refine ⟨locs, ?_, hkeys, hrefs⟩
    unfold NameNode.handle_download_init
    rw [hmd]
    dsimp only
    rw [hloop]
  · intro md hmd hbad
    have hbad2 : ∃ pr ∈ md.chunks, ∀ nid ∈ pr.2, ∀ info,
        alistLookup s.datanodes nid = some info → info.is_healthy now = false := by
      obtain ⟨pr, hpr, hall⟩ := hbad
      exact ⟨pr, hpr, fun nid hnid info hinfo =>
        (optionAny_eq_false_iff _ _).mp (hall nid hnid) info hinfo⟩
    obtain ⟨cid, hcid⟩ := downloadLoop_err s now md.chunks hbad2
    refine ⟨cid, ?_⟩
    unfold NameNode.handle_download_init
    rw [hmd]
    dsimp only
    rw [hcid]

/-- C7 witness: against a registry holding one healthy node "n1", the
lookup of an absent name answers NotFound, the file "good" (one chunk on
"n1") downloads with every listed node healthy, and the file "bad" (one
chunk whose only replica "nX" is unregistered) fails. -/
theorem C7_download_init_result_witness :
    ((NameNode.mk 4 1
        [("good", FileMetadata.mk "good" 3 4 1 0 [(0, ["n1"])]),
         ("bad", FileMetadata.mk "bad" 3 4 1 0 [(0, ["nX"])])]
        [("n1", DataNodeInfo.mk "n1" "h" 9 100 [] 5 10 true)]).handle_download_init
          "missing" 100
      = (NameNode.mk 4 1
          [("good", FileMetadata.mk "good" 3 4 1 0 [(0, ["n1"])]),
           ("bad", FileMetadata.mk "bad" 3 4 1 0 [(0, ["nX"])])]
          [("n1", DataNodeInfo.mk "n1" "h" 9 100 [] 5 10 true)],
         DownloadInitResult.notFound))
    ∧ (∃ locs, (NameNode.mk 4 1
          [("good", FileMetadata.mk "good" 3 4 1 0 [(0, ["n1"])]),
           ("bad", FileMetadata.mk "bad" 3 4 1 0 [(0, ["nX"])])]
          [("n1", DataNodeInfo.mk "n1" "h" 9 100 [] 5 10 true)]).handle_download_init
            "good" 100
          = (NameNode.mk 4 1
              [("good", FileMetadata.mk "good" 3 4 1 0 [(0, ["n1"])]),
               ("bad", FileMetadata.mk "bad" 3 4 1 0 [(0, ["nX"])])]
              [("n1", DataNodeInfo.mk "n1" "h" 9 100 [] 5 10 true)],
             DownloadInitResult.success 3 4 locs)
        ∧ locs.map Prod.fst = [0]
        ∧ ∀ pr ∈ locs, ∀ ref ∈ pr.2, ∃ info,
            alistLookup (NameNode.mk 4 1
              [("good", FileMetadata.mk "good" 3 4 1 0 [(0, ["n1"])]),
               ("bad", FileMetadata.mk "bad" 3 4 1 0 [(0, ["nX"])])]
              [("n1", DataNodeInfo.mk "n1" "h" 9 100 [] 5 10 true)]).datanodes
                ref.node_id = some info
              ∧ info.is_healthy 100 = true ∧ ref.host = info.host ∧ ref.port = info.port)
    ∧ (∃ cid, (NameNode.mk 4 1
          [("good", FileMetadata.mk "good" 3 4 1 0 [(0, ["n1"])]),
           ("bad", FileMetadata.mk "bad" 3 4 1 0 [(0, ["nX"])])]
          [("n1", DataNodeInfo.mk "n1" "h" 9 100 [] 5 10 true)]).handle_download_init
            "bad" 100
          = (NameNode.mk 4 1
              [("good", FileMetadata.mk "good" 3 4 1 0 [(0, ["n1"])]),
               ("bad", FileMetadata.mk "bad" 3 4 1 0 [(0, ["nX"])])]
              [("n1", DataNodeInfo.mk "n1" "h" 9 100 [] 5 10 true)],
             DownloadInitResult.noHealthy cid)) :=
  ⟨(C7_download_init_result (NameNode.mk 4 1
        [("good", FileMetadata.mk "good" 3 4 1 0 [(0, ["n1"])]),
         ("bad", FileMetadata.mk "bad" 3 4 1 0 [(0, ["nX"])])]
        [("n1", DataNodeInfo.mk "n1" "h" 9 100 [] 5 10 true)]) "missing" 100).1 (by decide),
   (C7_download_init_result (NameNode.mk 4 1
        [("good", FileMetadata.mk "good" 3 4 1 0 [(0, ["n1"])]),
         ("bad", FileMetadata.mk "bad" 3 4 1 0 [(0, ["nX"])])]
        [("n1", DataNodeInfo.mk "n1" "h" 9 100 [] 5 10 true)]) "good" 100).2.1
     (FileMetadata.mk "good" 3 4 1 0 [(0, ["n1"])]) (by decide) (by decide),
   (C7_download_init_result (NameNode.mk 4 1
        [("good", FileMetadata.mk "good" 3 4 1 0 [(0, ["n1"])]),
         ("bad", FileMetadata.mk "bad" 3 4 1 0 [(0, ["nX"])])]
        [("n1", DataNodeInfo.mk "n1" "h" 9 100 [] 5 10 true)]) "bad" 100).2.2
     (FileMetadata.mk "bad" 3 4 1 0 [(0, ["nX"])]) (by decide) (by decide)⟩

/-- C8: heartbeat contract: the heartbeat fails with UnknownNode exactly
when the id is absent from the registry (registrations are never removed,
so absence means the id was never registered); on success the node's
record ends up with the new heartbeat time, available and total space and
inventory, its alive bit set to true, and its identity fields untouched;
and a register followed by one accepted heartbeat leaves the node's alive
bit true. -/
theorem C8_heartbeat_contract (s : NameNode) (node_id : String)
    (available_space total_space : Nat) (inv : List String) (now : Nat) :
    ((s.handle_heartbeat node_id available_space total_space inv now).2
        = HeartbeatResult.unknownNode ↔ alistLookup s.datanodes node_id = none)
    ∧ (∀ info, alistLookup s.datanodes node_id = some info →
        (s.handle_heartbeat node_id available_space total_space inv now).2
            = HeartbeatResult.success
        ∧ ∃ info2, alistLookup
              (s.handle_heartbeat node_id available_space total_space inv now).1.datanodes
              node_id
            = some info2
          ∧ info2.last_heartbeat = now
          ∧ info2.available_space = available_space
          ∧ info2.total_space = total_space
          ∧ info2.chunks = inv
          ∧ info2.is_alive = true
          ∧ info2.node_id = info.node_id ∧ info2.host = info.host ∧ info2.port = info.port)
    ∧ (∀ host port t1,
        (((s.register_datanode node_id host port t1).1.handle_heartbeat
            node_id available_space total_space inv now).2 = HeartbeatResult.success
        ∧ ∃ info2, alistLookup ((s.register_datanode node_id host port t1).1.handle_heartbeat
              node_id available_space total_space inv now).1.datanodes node_id = some info2
            ∧ info2.is_alive = true)) := by
  refine ⟨?_, ?_, ?_⟩
  · cases hl : alistLookup s.datanodes node_id <;>
      simp [NameNode.handle_heartbeat, hl]
  · intro info hinfo
    constructor
    · simp [NameNode.handle_heartbeat, hinfo]
    · refine ⟨info.update_heartbeat now available_space total_space inv, ?_,
        rfl, rfl, rfl, rfl, rfl, rfl, rfl, rfl⟩
      simp only [NameNode.handle_heartbeat, hinfo]
      rw [alistLookup_alistModify_self, hinfo]
      rfl
  · intro host port t1
    have hsome : ∃ info1, alistLookup (s.register_datanode node_id host port t1).1.datanodes
        node_id = some info1 := by
      unfold NameNode.register_datanode
      by_cases h : (alistLookup s.datanodes node_id).isNone
      · rw [if_pos h]
        refine ⟨DataNodeInfo.mk node_id host port t1 [] 0 0 true, ?_⟩
        simp only [alistLookup_append]
        have hnone : alistLookup s.datanodes node_id = none :=
          Option.isNone_iff_eq_none.mp h
        simp [hnone, alistLookup_cons]
      · rw [if_neg h]
        cases hl : alistLookup s.datanodes node_id with
        | none => exact absurd (by simp [hl]) h
        | some v => exact ⟨v, rfl⟩
    obtain ⟨info1, h1⟩ := hsome
    constructor
    · simp [NameNode.handle_heartbeat, h1]
    · refine ⟨info1.update_heartbeat now available_space total_space inv, ?_, rfl⟩
      simp only [NameNode.handle_heartbeat, h1]
      rw [alistLookup_alistModify_self, h1]
      rfl

/-- C8 witness: a heartbeat for the registered node "n1" succeeds and
rewrites its record with the alive bit true; registering "n2" on an empty
registry and then heartbeating it leaves "n2" alive; and the
UnknownNode-iff-unregistered equivalence holds at "n1". -/
theorem C8_heartbeat_contract_witness :
    (((NameNode.mk 4 1 [] [("n1", DataNodeInfo.mk "n1" "h" 9 0 [] 1 2 true)]
        ).handle_heartbeat "n1" 7 8 ["x"] 50).2 = HeartbeatResult.unknownNode
      ↔ alistLookup (NameNode.mk 4 1 []
          [("n1", DataNodeInfo.mk "n1" "h" 9 0 [] 1 2 true)]).datanodes "n1" = none)
    ∧ (((NameNode.mk 4 1 [] [("n1", DataNodeInfo.mk "n1" "h" 9 0 [] 1 2 true)]
          ).handle_heartbeat "n1" 7 8 ["x"] 50).2 = HeartbeatResult.success
      ∧ ∃ info2, alistLookup (((NameNode.mk 4 1 []
            [("n1", DataNodeInfo.mk "n1" "h" 9 0 [] 1 2 true)]).handle_heartbeat
              "n1" 7 8 ["x"] 50).1).datanodes "n1" = some info2
          ∧ info2.last_heartbeat = 50
          ∧ info2.available_space = 7
          ∧ info2.total_space = 8
          ∧ info2.chunks = ["x"]
          ∧ info2.is_alive = true
          ∧ info2.node_id = "n1" ∧ info2.host = "h" ∧ info2.port = 9)
    ∧ ((((NameNode.mk 4 1 [] []).register_datanode "n2" "h2" 10 3).1.handle_heartbeat
          "n2" 5 6 ["c1"] 40).2 = HeartbeatResult.success
      ∧ ∃ info2, alistLookup (((NameNode.mk 4 1 [] []).register_datanode "n2" "h2" 10
            3).1.handle_heartbeat "n2" 5 6 ["c1"] 40).1.datanodes "n2" = some info2
          ∧ info2.is_alive = true) :=
  ⟨(C8_heartbeat_contract (NameNode.mk 4 1 []
      [("n1", DataNodeInfo.mk "n1" "h" 9 0 [] 1 2 true)]) "n1" 7 8 ["x"] 50).1,
   (C8_heartbeat_contract (NameNode.mk 4 1 []
      [("n1", DataNodeInfo.mk "n1" "h" 9 0 [] 1 2 true)]) "n1" 7 8 ["x"] 50).2.1
     (DataNodeInfo.mk "n1" "h" 9 0 [] 1 2 true) (by decide),
   (C8_heartbeat_contract (NameNode.mk 4 1 [] []) "n2" 5 6 ["c1"] 40).2.2 "h2" 10 3⟩

/-- C3: upload_init success postcondition: a successful
`handle_upload_init` reports the configured chunk size, a chunk count of
`ceil(size/chunk_size)`, and an assignments map keyed by every chunk index
in `[0, num_chunks)`; each per-chunk list arises from a node selection of
length exactly `replication_factor`, free of duplicate ids, drawn from the
registry, healthy (live) at the time of the call — and, granted the
reachable-state invariant that a node with a fresh heartbeat is also
marked alive, with alive bit true — listed in descending order of
available space, and dominating every healthy node left unselected.
The registry well-formedness hypotheses (unique keys, record id equal to
its key) hold for every registry the code can build. -/
theorem C3_upload_init_success_postcondition (s : NameNode) (filesize now : Nat)
    (cs n : Nat) (asg : List (Nat × List NodeRef))
    (hwfk : (s.datanodes.map Prod.fst).Nodup)
    (hwfv : ∀ p ∈ s.datanodes, p.2.node_id = p.1)
    (halive : ∀ p ∈ s.datanodes, p.2.is_healthy now = true → p.2.is_alive = true)
    (hsucc : (s.handle_upload_init filesize now).2 = UploadInitResult.success cs n asg) :
    cs = s.chunk_size
    ∧ n = filesize ⌈/⌉ s.chunk_size
    ∧ asg.map Prod.fst = List.range n
    ∧ ∀ pr ∈ asg, ∃ sel : List DataNodeInfo,
        pr.2 = sel.map (fun d => NodeRef.mk d.node_id d.host d.port)
        ∧ sel.length = s.replication_factor
        ∧ (sel.map DataNodeInfo.node_id).Nodup
        ∧ (∀ d ∈ sel, d ∈ s.datanodes.map Prod.snd ∧ d.is_healthy now = true
            ∧ d.is_alive = true)
        ∧ sel.Pairwise availGE
        ∧ (∀ d ∈ s.datanodes.map Prod.snd, d.is_healthy now = true →
              d.node_id ∉ sel.map DataNodeInfo.node_id →
              ∀ e ∈ sel, d.available_space ≤ e.available_space) := by
  unfold NameNode.handle_upload_init at hsucc
  dsimp only at hsucc
  cases hloop : s.uploadInitLoop now
      (List.range ((filesize + s.chunk_size - 1) / s.chunk_size)) with
  | none =>
      rw [hloop] at hsucc
      dsimp only at hsucc
      exact absurd hsucc (by simp)
  | some a =>
      rw [hloop] at hsucc
      dsimp only at hsucc
      obtain ⟨hcs, hn, hasg⟩ : cs = s.chunk_size
          ∧ n = (filesize + s.chunk_size - 1) / s.chunk_size ∧ a = asg := by
        have hinj := hsucc
        simp only [UploadInitResult.success.injEq] at hinj
        exact ⟨hinj.1.symm, hinj.2.1.symm, hinj.2.2⟩
      rw [hasg] at hloop
      obtain ⟨hkeys, hne, hall⟩ := uploadInitLoop_some s now _ asg hloop
      refine ⟨hcs, by rw [hn, Nat.ceilDiv_eq_add_pred_div], by rw [hkeys, hn], ?_⟩
      intro pr hpr
      have hcount : s.replication_factor
          ≤ ((s.datanodes.map Prod.snd).filter (fun n => n.is_healthy now)).length := by
        have hlen := length_select_datanodes s s.replication_factor now
        have hrange : List.range ((filesize + s.chunk_size - 1) / s.chunk_size) ≠ [] := by
          intro hc
          rw [hc] at hkeys
          simp only [List.map_eq_nil_iff] at hkeys
          rw [hkeys] at hpr
          simp at hpr
        have := hne hrange
        omega
      obtain ⟨sel, heq, hlen, hnd, hmem, hpw, htop⟩ := select_spec s now hwfk hwfv hcount
      refine ⟨sel, ?_, hlen, hnd, ?_, hpw, htop⟩
      · rw [hall pr hpr, heq]
      · intro d hd
        obtain ⟨hdmem, hdh⟩ := hmem d hd
        obtain ⟨p, hp, hpd⟩ := List.mem_map.mp hdmem
        refine ⟨hdmem, hdh, ?_⟩
        rw [← hpd]
        exact halive p hp (by rw [hpd]; exact hdh)

/-- C3 witness: three healthy nodes "a" (10 bytes free), "b" (30 free),
"c" (20 free), replication factor 2, chunk size 4: uploading 5 bytes
succeeds with two chunks, each assigned `["b", "c"]` in descending order
of free space. -/
theorem C3_upload_init_success_postcondition_witness :
    4 = (NameNode.mk 4 2 []
        [("a", DataNodeInfo.mk "a" "h1" 1 100 [] 10 50 true),
         ("b", DataNodeInfo.mk "b" "h2" 2 100 [] 30 50 true),
         ("c", DataNodeInfo.mk "c" "h3" 3 100 [] 20 50 true)]).chunk_size
    ∧ 2 = 5 ⌈/⌉ (NameNode.mk 4 2 []
        [("a", DataNodeInfo.mk "a" "h1" 1 100 [] 10 50 true),
         ("b", DataNodeInfo.mk "b" "h2" 2 100 [] 30 50 true),
         ("c", DataNodeInfo.mk "c" "h3" 3 100 [] 20 50 true)]).chunk_size
    ∧ ([(0, [NodeRef.mk "b" "h2" 2, NodeRef.mk "c" "h3" 3]),
        (1, [NodeRef.mk "b" "h2" 2, NodeRef.mk "c" "h3" 3])].map Prod.fst = List.range 2)
    ∧ ∀ pr ∈ [(0, [NodeRef.mk "b" "h2" 2, NodeRef.mk "c" "h3" 3]),
              (1, [NodeRef.mk "b" "h2" 2, NodeRef.mk "c" "h3" 3])],
        ∃ sel : List DataNodeInfo,
          pr.2 = sel.map (fun d => NodeRef.mk d.node_id d.host d.port)
          ∧ sel.length = (NameNode.mk 4 2 []
              [("a", DataNodeInfo.mk "a" "h1" 1 100 [] 10 50 true),
               ("b", DataNodeInfo.mk "b" "h2" 2 100 [] 30 50 true),
               ("c", DataNodeInfo.mk "c" "h3" 3 100 [] 20 50 true)]).replication_factor
          ∧ (sel.map DataNodeInfo.node_id).Nodup
          ∧ (∀ d ∈ sel, d ∈ (NameNode.mk 4 2 []
              [("a", DataNodeInfo.mk "a" "h1" 1 100 [] 10 50 true),
               ("b", DataNodeInfo.mk "b" "h2" 2 100 [] 30 50 true),
               ("c", DataNodeInfo.mk "c" "h3" 3 100 [] 20 50 true)]).datanodes.map Prod.snd
              ∧ d.is_healthy 100 = true ∧ d.is_alive = true)
          ∧ sel.Pairwise availGE
          ∧ (∀ d ∈ (NameNode.mk 4 2 []
              [("a", DataNodeInfo.mk "a" "h1" 1 100 [] 10 50 true),
               ("b", DataNodeInfo.mk "b" "h2" 2 100 [] 30 50 true),
               ("c", DataNodeInfo.mk "c" "h3" 3 100 [] 20 50 true)]).datanodes.map Prod.snd,
                d.is_healthy 100 = true → d.node_id ∉ sel.map DataNodeInfo.node_id →
                ∀ e ∈ sel, d.available_space ≤ e.available_space) :=
  C3_upload_init_success_postcondition
    (NameNode.mk 4 2 []
      [("a", DataNodeInfo.mk "a" "h1" 1 100 [] 10 50 true),
       ("b", DataNodeInfo.mk "b" "h2" 2 100 [] 30 50 true),
       ("c", DataNodeInfo.mk "c" "h3" 3 100 [] 20 50 true)])
    5 100 4 2
    [(0, [NodeRef.mk "b" "h2" 2, NodeRef.mk "c" "h3" 3]),
     (1, [NodeRef.mk "b" "h2" 2, NodeRef.mk "c" "h3" 3])]
    (by decide) (by decide) (by decide) (by decide)

end DFS
